import Mathlib

set_option maxRecDepth 20000
set_option maxHeartbeats 1000000

/-!
Verification development for the MatrixQi news service (src/app.py).

The Python source is shallowly embedded below.  Strings are modelled as
Lean `String` / `List Char`; the relevant parts of the Python standard
library (urllib.parse as shipped with CPython 3.11, str.strip, str.lower,
int(), list slicing) are translated as executable Lean functions.  The
Flask / supabase / feedparser collaborators are modelled by explicit
parameters (feed entries, stored rows, write success flags, abstract date
parsers), matching the external-collaborator boundary drawn by the spec.
-/

namespace MatrixQiNews

/-- Characters the Python str.strip / str.split family treats as
whitespace (the CPython Py_UNICODE_ISSPACE set). -/
def isPySpace (c : Char) : Bool :=
  let n := c.toNat
  (9 ≤ n ∧ n ≤ 13) || n = 32 || (28 ≤ n ∧ n ≤ 31) || n = 0x85 || n = 0xa0 ||
  n = 0x1680 || (0x2000 ≤ n ∧ n ≤ 0x200a) || n = 0x2028 || n = 0x2029 ||
  n = 0x202f || n = 0x205f || n = 0x3000

/-- Python str.strip with no arguments: drop leading and trailing
whitespace characters. -/
def pyStripL (l : List Char) : List Char :=
  ((l.dropWhile isPySpace).reverse.dropWhile isPySpace).reverse

/-- Python str.lower, restricted to ASCII case mapping (all characters
appearing in the verified statements are ASCII). -/
def pyLower (l : List Char) : List Char :=
  l.map Char.toLower

/-- Python str.rstrip with argument "/": drop every trailing slash. -/
def rstripSlashes (l : List Char) : List Char :=
  (l.reverse.dropWhile (fun c => c = '/')).reverse

def isAsciiDigit (c : Char) : Bool := '0' ≤ c ∧ c ≤ '9'

def isAsciiAlpha (c : Char) : Bool := ('a' ≤ c ∧ c ≤ 'z') ∨ ('A' ≤ c ∧ c ≤ 'Z')

/-- Characters allowed in a URL scheme by urllib.parse (letters, digits,
plus, minus, dot). -/
def isSchemeChar (c : Char) : Bool :=
  isAsciiAlpha c || isAsciiDigit c || c = '+' || c = '-' || c = '.'

def hexVal? (c : Char) : Option Nat :=
  if '0' ≤ c ∧ c ≤ '9' then some (c.toNat - '0'.toNat)
  else if 'a' ≤ c ∧ c ≤ 'f' then some (c.toNat - 'a'.toNat + 10)
  else if 'A' ≤ c ∧ c ≤ 'F' then some (c.toNat - 'A'.toNat + 10)
  else none

/-- Split at the first occurrence of a separator: Python s.split(sep, 1).
Returns the part before the separator and, when present, the part after. -/
def splitFirst (sep : Char) : List Char → List Char × Option (List Char)
  | [] => ([], none)
  | c :: rest =>
    if c = sep then ([], some rest)
    else
      let r := splitFirst sep rest
      (c :: r.1, r.2)

/-- Everything after the last occurrence of a character; the whole list if
the character does not occur (Python str.rpartition projected to the
final component). -/
def afterLastChar (sep : Char) (l : List Char) : List Char :=
  (l.reverse.takeWhile (fun c => ¬ c = sep)).reverse

/-- Split on every character satisfying a predicate, keeping empty
segments (Python str.split with an explicit separator keeps them). -/
def splitOnPred (p : Char → Bool) (l : List Char) : List (List Char) :=
  l.foldr
    (fun c acc =>
      match acc with
      | [] => [[c]]
      | seg :: rest => if p c then [] :: seg :: rest else (c :: seg) :: rest)
    [[]]

def splitOnChar (sep : Char) (l : List Char) : List (List Char) :=
  splitOnPred (fun c => c = sep) l

/-- Whitespace-run split used by Python str.split with no arguments:
empty segments are dropped. -/
def pyWords (l : List Char) : List (List Char) :=
  (splitOnPred isPySpace l).filter (fun w => ¬ w = [])

def isCont (b : Nat) : Bool := 0x80 ≤ b ∧ b ≤ 0xBF

def replChar : Char := Char.ofNat 0xFFFD

/-- Fuel-indexed worker for UTF-8 decoding with the Python "replace"
error handler: each maximal ill-formed subpart becomes one U+FFFD. Every
step consumes at least one byte, so fuel equal to the input length is
enough; the fuel makes the recursion structural. -/
def utf8DecodeGo : Nat → List Nat → List Char
  | 0, _ => []
  | _ + 1, [] => []
  | fuel + 1, b :: rest =>
    if b < 0x80 then Char.ofNat b :: utf8DecodeGo fuel rest
    else if 0xC2 ≤ b ∧ b ≤ 0xDF then
      match rest with
      | [] => [replChar]
      | b2 :: rest2 =>
        if isCont b2 then Char.ofNat ((b - 0xC0) * 64 + (b2 - 0x80)) :: utf8DecodeGo fuel rest2
        else replChar :: utf8DecodeGo fuel rest
    else if 0xE0 ≤ b ∧ b ≤ 0xEF then
      let lo1 := if b = 0xE0 then 0xA0 else 0x80
      let hi1 := if b = 0xED then 0x9F else 0xBF
      match rest with
      | [] => [replChar]
      | b2 :: rest2 =>
        if lo1 ≤ b2 ∧ b2 ≤ hi1 then
          match rest2 with
          | [] => [replChar]
          | b3 :: rest3 =>
            if isCont b3 then
              Char.ofNat ((b - 0xE0) * 4096 + (b2 - 0x80) * 64 + (b3 - 0x80)) ::
                utf8DecodeGo fuel rest3
            else replChar :: utf8DecodeGo fuel rest2
        else replChar :: utf8DecodeGo fuel rest
    else if 0xF0 ≤ b ∧ b ≤ 0xF4 then
      let lo1 := if b = 0xF0 then 0x90 else 0x80
      let hi1 := if b = 0xF4 then 0x8F else 0xBF
      match rest with
      | [] => [replChar]
      | b2 :: rest2 =>
        if lo1 ≤ b2 ∧ b2 ≤ hi1 then
          match rest2 with
          | [] => [replChar]
          | b3 :: rest3 =>
            if isCont b3 then
              match rest3 with
              | [] => [replChar]
              | b4 :: rest4 =>
                if isCont b4 then
                  Char.ofNat
                      ((b - 0xF0) * 262144 + (b2 - 0x80) * 4096 + (b3 - 0x80) * 64 +
                        (b4 - 0x80)) ::
                    utf8DecodeGo fuel rest4
                else replChar :: utf8DecodeGo fuel rest3
            else replChar :: utf8DecodeGo fuel rest2
        else replChar :: utf8DecodeGo fuel rest
    else replChar :: utf8DecodeGo fuel rest

def utf8DecodeReplace (bs : List Nat) : List Char :=
  utf8DecodeGo (bs.length + 1) bs

def utf8Encode (c : Char) : List Nat :=
  let n := c.toNat
  if n < 0x80 then [n]
  else if n < 0x800 then [0xC0 + n / 64, 0x80 + n % 64]
  else if n < 0x10000 then [0xE0 + n / 4096, 0x80 + (n / 64) % 64, 0x80 + n % 64]
  else [0xF0 + n / 262144, 0x80 + (n / 4096) % 64, 0x80 + (n / 64) % 64, 0x80 + n % 64]

/-- Fuel-indexed worker for urllib.parse.unquote: accumulates pending
bytes (in reverse), flushing them through the UTF-8 replace decoder at
the end of each maximal ASCII run, exactly as CPython decodes each ASCII
chunk of the input as one byte string. Each step consumes at least one
character, so fuel equal to the input length is enough. -/
def pyUnquoteGo : Nat → List Nat → List Char → List Char
  | 0, acc, _ => utf8DecodeReplace acc.reverse
  | _ + 1, acc, [] => utf8DecodeReplace acc.reverse
  | fuel + 1, acc, c :: rest =>
    if c = '%' then
      match rest with
      | c1 :: c2 :: rest2 =>
        match hexVal? c1, hexVal? c2 with
        | some h1, some h2 => pyUnquoteGo fuel ((h1 * 16 + h2) :: acc) rest2
        | _, _ => pyUnquoteGo fuel ('%'.toNat :: acc) rest
      | _ => pyUnquoteGo fuel ('%'.toNat :: acc) rest
    else if c.toNat < 0x80 then pyUnquoteGo fuel (c.toNat :: acc) rest
    else utf8DecodeReplace acc.reverse ++ c :: pyUnquoteGo fuel [] rest

/-- urllib.parse.unquote with the default utf-8 / replace arguments. -/
def pyUnquote (l : List Char) : List Char :=
  pyUnquoteGo (l.length + 1) [] l

def plusToSpace (l : List Char) : List Char :=
  l.map (fun c => if c = '+' then ' ' else c)

/-- Characters urllib.parse.quote never escapes (with empty safe set). -/
def isQuoteSafe (c : Char) : Bool :=
  isAsciiAlpha c || isAsciiDigit c || c = '_' || c = '.' || c = '-' || c = '~'

def hexDigitUpper (n : Nat) : Char :=
  if n < 10 then Char.ofNat ('0'.toNat + n) else Char.ofNat ('A'.toNat + n - 10)

def percentByte (b : Nat) : List Char :=
  ['%', hexDigitUpper (b / 16), hexDigitUpper (b % 16)]

/-- urllib.parse.quote_plus with an empty safe set, as urlencode uses it:
safe characters pass, space becomes plus, everything else is
percent-encoded bytewise in UTF-8. -/
def pyQuotePlus (l : List Char) : List Char :=
  l.foldr
    (fun c acc =>
      if isQuoteSafe c then c :: acc
      else if c = ' ' then '+' :: acc
      else (utf8Encode c).foldr (fun b a => percentByte b ++ a) acc)
    []

/-- urllib.parse.parse_qsl with keep_blank_values=True and the default
ampersand separator: empty segments are skipped, a segment without an
equals sign keeps a blank value, plus signs become spaces and both name
and value are percent-decoded. -/
def parse_qsl (qs : List Char) : List (List Char × List Char) :=
  if qs = [] then []
  else
    (splitOnChar '&' qs).foldr
      (fun seg acc =>
        if seg = [] then acc
        else
          match splitFirst '=' seg with
          | (n, some v) => (pyUnquote (plusToSpace n), pyUnquote (plusToSpace v)) :: acc
          | (n, none) => (pyUnquote (plusToSpace n), []) :: acc)
      []

/-- Append a value under a key in an association list of grouped query
parameters, preserving first-seen key order (the Python dict built by
parse_qs). -/
def addPair (acc : List (List Char × List (List Char))) (k : List Char) (v : List Char) :
    List (List Char × List (List Char)) :=
  match acc with
  | [] => [(k, [v])]
  | (k0, vs) :: rest =>
    if k0 = k then (k0, vs ++ [v]) :: rest else (k0, vs) :: addPair rest k v

/-- urllib.parse.parse_qs with keep_blank_values=True. -/
def parse_qs (qs : List Char) : List (List Char × List (List Char)) :=
  (parse_qsl qs).foldl (fun acc p => addPair acc p.1 p.2) []

/-- urllib.parse.urlencode with doseq=True over the grouped dictionary:
one key=value pair per element of each value list, joined by ampersands,
both sides quoted with quote_plus. -/
def urlencodePairs (qp : List (List Char × List (List Char))) : List Char :=
  List.intercalate ['&']
    (qp.foldr
      (fun kv acc => kv.2.map (fun v => pyQuotePlus kv.1 ++ '=' :: pyQuotePlus v) ++ acc)
      [])

structure UrlParts where
  scheme : List Char
  netloc : List Char
  path : List Char
  params : List Char
  query : List Char
  fragment : List Char
deriving DecidableEq

/-- Leading WHATWG C0-control-or-space strip done at the top of
urllib.parse.urlsplit. -/
def lstripC0Space (l : List Char) : List Char :=
  l.dropWhile (fun c => c.toNat ≤ 0x20)

/-- Removal of tab, carriage return and line feed anywhere in the URL
(urllib.parse._UNSAFE_URL_BYTES_TO_REMOVE). -/
def removeTabsCrLf (l : List Char) : List Char :=
  l.filter (fun c => ¬ (c = '\t' ∨ c = '\r' ∨ c = '\n'))

/-- Scheme recognition of urlsplit: a leading run of scheme characters
starting with an ASCII letter, immediately followed by a colon. Returns
the lowercased scheme (when recognised) and the remainder. -/
def splitScheme (url : List Char) : Option (List Char) × List Char :=
  let pre := url.takeWhile isSchemeChar
  match url.drop pre.length with
  | c :: tail =>
    if c = ':' then
      match pre with
      | [] => (none, url)
      | c0 :: _ => if isAsciiAlpha c0 then (some (pyLower pre), tail) else (none, url)
    else (none, url)
  | [] => (none, url)

def isNetlocDelim (c : Char) : Bool := c = '/' ∨ c = '?' ∨ c = '#'

/-- urllib.parse._splitnetloc on the text following the double slash. -/
def splitNetloc (url : List Char) : List Char × List Char :=
  (url.takeWhile (fun c => ¬ isNetlocDelim c), url.dropWhile (fun c => ¬ isNetlocDelim c))

/-- Modelled approximation of CPython _check_bracketed_host: an IPvFuture
literal (leading v, hex digits, a dot, nonempty remainder) is accepted;
otherwise the bracketed text must look like an IPv6 address: nonempty,
made of hex digits, colons and dots, and containing a colon. The full
ipaddress grammar (zone identifiers, group counting) is not reproduced;
no theorem below depends on this corner of the library. -/
def validBracketHost (h : List Char) : Bool :=
  match h with
  | 'v' :: rest =>
    let hexs := rest.takeWhile (fun c => (hexVal? c).isSome)
    decide (¬ hexs = []) &&
      (match rest.drop hexs.length with
       | '.' :: t => decide (¬ t = [])
       | _ => false)
  | _ =>
    decide (¬ h = []) && h.contains ':' &&
      h.all (fun c => (hexVal? c).isSome || c = ':' || c = '.')

/-- Fragment and query extraction shared by both urlsplit branches. -/
def urlsplitFinish (scheme netloc url3 : List Char) : UrlParts :=
  let fr := splitFirst '#' url3
  let rest1 := if (fr.2).isSome then fr.1 else url3
  let frag := (fr.2).getD []
  let qu := splitFirst '?' rest1
  let path := if (qu.2).isSome then qu.1 else rest1
  ⟨scheme, netloc, path, [], (qu.2).getD [], frag⟩

/-- urllib.parse.urlsplit (CPython 3.11): leading control/space strip,
tab and newline removal, scheme recognition, netloc extraction with the
bracket validity checks (which raise ValueError, modelled as error),
then fragment and query splits. The non-ASCII NFKC netloc check is
modelled as always passing (it never fires on ASCII netlocs). -/
def pyUrlsplit (url0 : List Char) : Except Unit UrlParts :=
  let url1 := removeTabsCrLf (lstripC0Space url0)
  let sr := splitScheme url1
  let scheme := (sr.1).getD []
  let url2 := sr.2
  if url2.take 2 = ['/', '/'] then
    let nl := splitNetloc (url2.drop 2)
    let netloc := nl.1
    let url3 := nl.2
    if (netloc.contains '[' ∧ ¬ netloc.contains ']') ∨
        (netloc.contains ']' ∧ ¬ netloc.contains '[') then .error ()
    else if netloc.contains '[' ∧ netloc.contains ']' then
      let bracketed := (splitFirst ']' (((splitFirst '[' netloc).2).getD [])).1
      if validBracketHost bracketed then .ok (urlsplitFinish scheme netloc url3)
      else .error ()
    else .ok (urlsplitFinish scheme netloc url3)
  else .ok (urlsplitFinish scheme [] url2)

/-- urllib.parse._splitparams: split a semicolon suffix off the last path
segment. -/
def splitParamsPath (url : List Char) : List Char × List Char :=
  if url.contains '/' then
    let lastSeg := afterLastChar '/' url
    let before := url.take (url.length - lastSeg.length)
    match splitFirst ';' lastSeg with
    | (a, some b) => (before ++ a, b)
    | (_, none) => (url, [])
  else
    match splitFirst ';' url with
    | (a, some b) => (a, b)
    | (_, none) => (url, [])

/-- urllib.parse.urlparse: urlsplit plus the params split on the path. -/
def pyUrlparse (url : List Char) : Except Unit UrlParts :=
  match pyUrlsplit url with
  | .error e => .error e
  | .ok p =>
    if p.path.contains ';' then
      let sp := splitParamsPath p.path
      .ok { p with path := sp.1, params := sp.2 }
    else .ok p

/-- The hostname property of a parse result: text after the last at-sign,
then either the bracketed host or the part before the port colon,
lowercased; an absent hostname collapses to the empty string exactly as
the source writes parsed.hostname or the empty string. -/
def pyHostname (netloc : List Char) : List Char :=
  let hostinfo := afterLastChar '@' netloc
  let host :=
    if hostinfo.contains '[' then
      (splitFirst ']' (((splitFirst '[' hostinfo).2).getD [])).1
    else (splitFirst ':' hostinfo).1
  pyLower host

/-- Tracking-parameter test from store_news: the lowercased key starts
with utm_ or equals fbclid or gclid. -/
def trackerKey (k : List Char) : Bool :=
  let kl := pyLower k
  kl.take 4 = ['u', 't', 'm', '_'] ∨ kl = ['f', 'b', 'c', 'l', 'i', 'd'] ∨
    kl = ['g', 'c', 'l', 'i', 'd']

/-- The to_remove loop of normalize_link: collect the tracker keys, then
delete each of them from the grouped dictionary. -/
def removeTracking (qp : List (List Char × List (List Char))) :
    List (List Char × List (List Char)) :=
  let toRemove := (qp.map Prod.fst).filter trackerKey
  qp.filter (fun kv => ¬ toRemove.contains kv.1)

def endsInSlash (l : List Char) : Bool :=
  l.getLast? = some '/'

/-- The norm-assembly of normalize_link after a successful parse:
hostname plus path plus the rebuilt query, trailing-slash strip, then
lowercase. -/
def normFromParts (parsed : UrlParts) : List Char :=
  let qp := parse_qs parsed.query
  let newQuery := urlencodePairs (removeTracking qp)
  let norm0 := pyHostname parsed.netloc ++ parsed.path
  let norm1 := if newQuery = [] then norm0 else norm0 ++ '?' :: newQuery
  let norm2 :=
    if endsInSlash norm1 ∧ norm1.length > 1 then rstripSlashes norm1 else norm1
  pyLower norm2

/-- The try/except of normalize_link around urlparse: the fallback strips
trailing slashes from the (stripped, possibly https-prefixed) input and
lowercases it. -/
def normLinkCore (urlStr : List Char) : List Char :=
  match pyUrlparse urlStr with
  | .error _ => pyLower (rstripSlashes urlStr)
  | .ok parsed => normFromParts parsed

/-- The body of normalize_link from src/app.py, over character lists. -/
def normLinkList (raw : List Char) : List Char :=
  if raw = [] then []
  else
    let url0 := pyStripL raw
    normLinkCore
      (if url0.take 2 = ['/', '/'] then ['h', 't', 't', 'p', 's', ':'] ++ url0 else url0)

/-- normalize_link from src/app.py. Input is always a string in this
model, so the isinstance guard reduces to the emptiness test. -/
def normalize_link (s : String) : String :=
  String.mk (normLinkList s.data)

/-- normalize_title from src/app.py: split on whitespace runs, rejoin
with single spaces, strip, lowercase. -/
def normalize_title (s : String) : String :=
  String.mk (pyLower (pyStripL (List.intercalate [' '] (pyWords s.data))))

def pyStrip (s : String) : String :=
  String.mk (pyStripL s.data)

/-- Duck-typed value of a feedparser entry field, per the design note of
the spec: a string, a keyed object with value and content entries, a list
of such values, or absent. -/
inductive DVal where
  | absent
  | str (s : String)
  | obj (value content : String)
  | lst (elems : List DVal)

/-- Python truthiness of a feed field in this model: absent and empty
string are falsy, a keyed object is truthy (its two keys are present),
a list is truthy when nonempty. -/
def DVal.truthy : DVal → Bool
  | .absent => false
  | .str s => ¬ s = ""
  | .obj _ _ => true
  | .lst es => ¬ es.isEmpty

/-- The value-or-content projection applied to dict-shaped fields:
val.get with key value, or val.get with key content when the former is
empty. -/
def DVal.valueOrContent : DVal → String
  | .obj v c => if ¬ v = "" then v else c
  | _ => ""

/-- A parsed feed entry as store_news reads it: title, link, the four
description candidates, and the two date candidates. -/
structure Entry where
  title : String
  link : String
  summary : DVal
  description : DVal
  content : DVal
  subtitle : DVal
  published : String
  updated : String

/-- Description extraction of store_news: summary (string or dict), then
description (string or dict), then content (first element of a list when
dict-shaped, or a dict), then subtitle (string only); first non-empty
wins. -/
def extractDescription (it : Entry) : String :=
  let d1 :=
    if it.summary.truthy then
      match it.summary with
      | .str s => s
      | .obj v c => DVal.valueOrContent (.obj v c)
      | _ => ""
    else ""
  let d2 :=
    if d1 = "" ∧ it.description.truthy then
      match it.description with
      | .str s => s
      | .obj v c => DVal.valueOrContent (.obj v c)
      | _ => ""
    else d1
  let d3 :=
    if d2 = "" ∧ it.content.truthy then
      match it.content with
      | .lst (first :: _) =>
        (match first with
         | .obj v c => DVal.valueOrContent (.obj v c)
         | _ => "")
      | .obj v c => DVal.valueOrContent (.obj v c)
      | _ => ""
    else d2
  if d3 = "" ∧ it.subtitle.truthy then
    match it.subtitle with
    | .str s => s
    | _ => d3
  else d3

/-- A normalized item built per ingest run (the dict appended to the
normalized list in store_news). -/
structure NormItem where
  title : String
  link : String
  description : String
  date : String
  norm_link : String
  title_date_key : String
deriving DecidableEq

/-- The per-entry normalization of store_news: pick the publication date
from published then updated, build norm_link and title_date_key, strip
the stored fields. -/
def mkNormItem (it : Entry) : NormItem :=
  let pubDate := if ¬ it.published = "" then it.published else it.updated
  let normTitle := normalize_title it.title
  { title := pyStrip it.title
    link := pyStrip it.link
    description := pyStrip (extractDescription it)
    date := pyStrip pubDate
    norm_link := normalize_link it.link
    title_date_key :=
      if ¬ pubDate = "" then normTitle ++ "||" ++ pyStrip pubDate else "" }

/-- The normalization loop of store_news: entries with neither title nor
link are discarded, the rest are normalized in order. -/
def buildNormalized (items : List Entry) : List NormItem :=
  items.foldr
    (fun it acc => if ¬ it.title = "" ∨ ¬ it.link = "" then mkNormItem it :: acc else acc)
    []

/-- A stored row as the ingest dedup pass selects it (link, title, date
columns; a null column collapses to the empty string via the or-empty
guards in the source). -/
structure StoredRow where
  link : String
  title : String
  date : String
deriving DecidableEq

/-- Python set insertion modelled on lists: add when not yet present. -/
def addSet (s : List String) (x : String) : List String :=
  if x ∈ s then s else x :: s

/-- One row of the deduplication-set construction of store_news: a row
with a non-empty normalized link feeds existing_links_set, and a row
whose normalized title or raw date is non-empty feeds
existing_title_date_set. The two sequential if statements of the source
are expanded into their four joint cases. -/
def buildSetsStep (acc : List String × List String) (r : StoredRow) :
    List String × List String :=
  if ¬ normalize_link r.link = "" then
    if ¬ normalize_title r.title = "" ∨ ¬ r.date = "" then
      (addSet acc.1 (normalize_link r.link),
        addSet acc.2 (normalize_title r.title ++ "||" ++ r.date))
    else (addSet acc.1 (normalize_link r.link), acc.2)
  else
    if ¬ normalize_title r.title = "" ∨ ¬ r.date = "" then
      (acc.1, addSet acc.2 (normalize_title r.title ++ "||" ++ r.date))
    else acc

/-- The deduplication-set construction loop of store_news. -/
def buildSets (rows : List StoredRow) : List String × List String :=
  rows.foldl buildSetsStep ([], [])

/-- Skip counters of the ingest decision loop. -/
structure Skipped where
  duplicateLink : Nat
  duplicateTitleDate : Nat
  noLinkNoTitle : Nat
deriving DecidableEq

/-- State threaded through the ingest decision loop. -/
structure DedupState where
  toInsert : List NormItem
  links : List String
  keys : List String
  skipped : Skipped
deriving DecidableEq

/-- One iteration of the decision loop of store_news: link-based
deduplication first; otherwise the title+date fallback; otherwise the
final else which counts duplicateTitleDate whenever the normalized link
is empty. -/
def dedupeStep (st : DedupState) (it : NormItem) : DedupState :=
  if ¬ it.norm_link = "" then
    if ¬ it.norm_link ∈ st.links then
      { st with
        toInsert := st.toInsert ++ [it]
        links := addSet st.links it.norm_link }
    else
      { st with
        skipped := { st.skipped with duplicateLink := st.skipped.duplicateLink + 1 } }
  else if ¬ it.title_date_key = "" ∧ ¬ it.title_date_key ∈ st.keys then
    { st with
      toInsert := st.toInsert ++ [it]
      keys := addSet st.keys it.title_date_key }
  else
    if it.norm_link = "" then
      { st with
        skipped :=
          { st.skipped with duplicateTitleDate := st.skipped.duplicateTitleDate + 1 } }
    else st

/-- The full decision loop over the normalized items. -/
def dedupe (ns : List NormItem) (links0 keys0 : List String) : DedupState :=
  ns.foldl dedupeStep ⟨[], links0, keys0, ⟨0, 0, 0⟩⟩

/-- A row of the batch insert (the projected dict appended to to_insert). -/
structure InsertRow where
  title : String
  link : String
  description : String
  date : String
deriving DecidableEq

def projectItem (it : NormItem) : InsertRow :=
  ⟨it.title, it.link, it.description, it.date⟩

/-- The JSON response bodies store_news can produce on the paths the
claims cover (the feed-transport-failure path is outside this model:
entries are given as input). Field names follow the jsonify literals of
the source. -/
inductive StoreNewsResponse where
  | emptyFeed
  | noNewItems (fetchedCount : Nat) (skipped : Skipped)
  | success (fetchedCount insertedCount : Nat) (inserted : List InsertRow) (skipped : Skipped)
  | insertError
deriving DecidableEq

/-- The JSON keys of each response literal in store_news. -/
def responseKeys : StoreNewsResponse → List String
  | .emptyFeed => ["message", "fetched", "inserted"]
  | .noNewItems _ _ => ["message", "fetchedCount", "skipped", "insertedCount"]
  | .success _ _ _ _ => ["message", "fetchedCount", "insertedCount", "inserted", "skipped"]
  | .insertError => ["error", "detail"]

/-- Numeric JSON fields of each store_news response. -/
def fieldNat (r : StoreNewsResponse) (key : String) : Option Nat :=
  match r with
  | .emptyFeed =>
    if key = "fetched" then some 0 else if key = "inserted" then some 0 else none
  | .noNewItems f _ =>
    if key = "fetchedCount" then some f else if key = "insertedCount" then some 0 else none
  | .success f i _ _ =>
    if key = "fetchedCount" then some f else if key = "insertedCount" then some i else none
  | .insertError => none

/-- The skipped object of a store_news response, when it reports one. -/
def getSkipped : StoreNewsResponse → Option Skipped
  | .noNewItems _ s => some s
  | .success _ _ _ s => some s
  | _ => none

/-- HTTP status of each store_news response (jsonify defaults to 200,
the insert failure returns 500). -/
def storeStatus : StoreNewsResponse → Nat
  | .insertError => 500
  | _ => 200

/-- store_news from src/app.py, from the point where the feed has been
fetched and parsed: items are the parsed entries, existingRows the rows
the paginated select returned (an empty list doubles as the degraded
empty set after a select failure), insertOk tells whether the batch
insert succeeds. The second component is the batch the store write is
attempted with; none means no write is attempted. -/
def store_news (items : List Entry) (existingRows : List StoredRow) (insertOk : Bool) :
    StoreNewsResponse × Option (List InsertRow) :=
  if items.isEmpty then (.emptyFeed, none)
  else
    let normalized := buildNormalized items
    if normalized = [] then (.emptyFeed, none)
    else
      let sets := buildSets existingRows
      let st := dedupe normalized sets.1 sets.2
      let toIns := st.toInsert.map projectItem
      if toIns = [] then (.noNewItems normalized.length st.skipped, none)
      else if insertOk then
        (.success normalized.length toIns.length toIns st.skipped, some toIns)
      else (.insertError, some toIns)

/-- Python int() on a string: optional surrounding whitespace, optional
sign, then ASCII digits with single underscores allowed between digits
(non-ASCII decimal digits are not modelled; none appear in any statement
below). -/
def pyIntDigits : List Char → Option Nat
  | [] => none
  | c :: rest =>
    match hexVal? c with
    | some d =>
      if d ≤ 9 then
        rest.foldl
          (fun (acc : Option (Nat × Bool)) ch =>
            match acc with
            | none => none
            | some (n, prevUnderscore) =>
              if ch = '_' then
                if prevUnderscore then none else some (n, true)
              else
                match hexVal? ch with
                | some d2 => if d2 ≤ 9 then some (n * 10 + d2, false) else none
                | none => none)
          (some (d, false))
        |>.bind (fun p => if p.2 then none else some p.1)
      else none
    | none => none

def pyInt (s : String) : Option Int :=
  let l := pyStripL s.data
  match l with
  | '+' :: rest => (pyIntDigits rest).map (fun n => (n : Int))
  | '-' :: rest => (pyIntDigits rest).map (fun n => -(n : Int))
  | _ => (pyIntDigits l).map (fun n => (n : Int))

/-- Python list slicing xs index o and onwards: a negative start counts
from the end, clamped at zero. -/
def pySliceFrom (o : Int) (xs : List α) : List α :=
  if 0 ≤ o then xs.drop o.toNat else xs.drop (xs.length - (-o).toNat)

/-- Python list slicing up to index l: a negative stop counts from the
end, clamped at zero. -/
def pySliceTo (l : Int) (xs : List α) : List α :=
  if 0 ≤ l then xs.take l.toNat else xs.take (xs.length - (-l).toNat)

/-- A row as the read pipeline selects it. -/
structure ReadRow where
  id : Nat
  title : String
  link : String
  description : String
  date : String
deriving DecidableEq

/-- The ordered fallback chain parse_row_date of fetch_news, with the
three library parsers (feedparser pubDate parsing, fromisoformat, the
dateutil flexible parser) abstracted as functions returning an absolute
instant, here an integer timestamp; an empty date string short-circuits
to no result. -/
def parse_row_date (pFeed pIso pUtil : String → Option Int) (s : String) : Option Int :=
  if s = "" then none
  else
    match pFeed s with
    | some t => some t
    | none =>
      match pIso s with
      | some t => some t
      | none => pUtil s

/-- The kolkata_date annotation of a row: the parsed instant converted to
an Asia/Kolkata calendar date string by the abstracted
to_kolkata_date_str (which can itself fail, returning none). -/
def rowKolkataDate (pFeed pIso pUtil : String → Option Int) (toK : Int → Option String)
    (dateStr : String) : Option String :=
  match parse_row_date pFeed pIso pUtil dateStr with
  | some t => toK t
  | none => none

/-- The successful payload of fetch_news. -/
structure FetchOk where
  requested_day : String
  day_date : String
  count : Nat
  news : List ReadRow
deriving DecidableEq

/-- The offset-then-limit application of fetch_news: the offset slice is
skipped when the offset is zero (falsy) and the limit slice when the
limit is absent or zero (falsy), matching the two guarded reassignments
of the source. -/
def pyWindow (limitv : Option Int) (offsetv : Int) (l : List α) : List α :=
  match limitv with
  | none => if ¬ offsetv = 0 then pySliceFrom offsetv l else l
  | some li =>
    if ¬ li = 0 then pySliceTo li (if ¬ offsetv = 0 then pySliceFrom offsetv l else l)
    else if ¬ offsetv = 0 then pySliceFrom offsetv l else l

/-- The day-bucketing, fallback, pagination and projection part of
fetch_news, given the already-fetched rows and the two target date
strings. The projection back to id, title, link, description and date
is the identity on this row model, since kolkata_date is kept in a
separate annotation component rather than merged into the row. -/
def fetchNewsCore (pFeed pIso pUtil : String → Option Int) (toK : Int → Option String)
    (todayS yesterdayS : String) (rows : List ReadRow) (limitv : Option Int) (offsetv : Int) :
    FetchOk :=
  let annotated := rows.map (fun r => (r, rowKolkataDate pFeed pIso pUtil toK r.date))
  let todays := annotated.filter (fun a => a.2 = some todayS)
  let sel := if todays = [] then annotated.filter (fun a => a.2 = some yesterdayS) else todays
  let usedDay := if todays = [] then "yesterday" else "today"
  let news := (pyWindow limitv offsetv sel).map Prod.fst
  { requested_day := usedDay
    day_date := if usedDay = "today" then todayS else yesterdayS
    count := news.length
    news := news }

/-- The fetch_news responses: a successful body, or the 500 error from
the outer exception handler (which is what an int() ValueError on the
query parameters reaches). The store-read failure branch is not modelled;
rows are given as input. -/
inductive FetchResponse where
  | ok (r : FetchOk)
  | internalError
deriving DecidableEq

def fetchStatus : FetchResponse → Nat
  | .ok _ => 200
  | .internalError => 500

/-- fetch_news from src/app.py, from the query-parameter parsing on: an
absent parameter defaults to the integer zero, a present one goes
through int() whose failure propagates to the 500 handler; a zero limit
becomes no limit via the or-None, and a zero offset stays zero via the
or-zero. -/
def fetch_news (pFeed pIso pUtil : String → Option Int) (toK : Int → Option String)
    (todayS yesterdayS : String) (rows : List ReadRow) (limitArg offsetArg : Option String) :
    FetchResponse :=
  let limRaw := match limitArg with | none => some (0 : Int) | some s => pyInt s
  let offRaw := match offsetArg with | none => some (0 : Int) | some s => pyInt s
  match limRaw, offRaw with
  | some li, some off =>
    let limitv : Option Int := if li = 0 then none else some li
    .ok (fetchNewsCore pFeed pIso pUtil toK todayS yesterdayS rows limitv off)
  | _, _ => .internalError

/-- A character that the URL-cleaning passes of urlsplit and str.strip
leave alone: above the C0-control-or-space range and not Python
whitespace. -/
def cleanChar (c : Char) : Bool :=
  decide (0x20 < c.toNat) && ! isPySpace c

/-! Concrete fixtures used by witnesses and counterexamples. -/

def pfToday : String → Option Int := fun s => if s = "feed-date" then some 0 else none

def pNone : String → Option Int := fun _ => none

def tkDemo : Int → Option String := fun t => if t = 0 then some "2024-01-02" else none

def rowToday : ReadRow := ⟨1, "t1", "l1", "d1", "feed-date"⟩

def rowBad : ReadRow := ⟨2, "t2", "l2", "d2", "unparseable"⟩

def entryNoLinkNoDate : Entry := ⟨"Hello", "", .absent, .absent, .absent, .absent, "", ""⟩

def entryA : Entry :=
  ⟨"T1", "https://example.com/x?utm_source=a", .absent, .absent, .absent, .absent,
    "Mon, 02 Jan 2024 10:00:00 GMT", ""⟩

def itemNoKey : NormItem := ⟨"Hello", "", "", "", "", ""⟩

def stEmpty : DedupState := ⟨[], [], [], ⟨0, 0, 0⟩⟩

def itemX : NormItem := ⟨"A", "https://example.com/x", "", "", "example.com/x", ""⟩

def itemX2 : NormItem :=
  ⟨"B", "https://example.com/x?utm_source=t", "", "", "example.com/x", ""⟩

def rowLinked : StoredRow := ⟨"https://example.com/a", "T", "D"⟩

/-! General helper lemmas about the character-level library model. -/

theorem char_ofNat_toNat (n : Nat) (h : n < 55296) : (Char.ofNat n).toNat = n := by
  unfold Char.ofNat
  rw [dif_pos (Or.inl h : n.isValidChar)]
  rfl

theorem toLower_idem (c : Char) : Char.toLower (Char.toLower c) = Char.toLower c := by
  unfold Char.toLower
  by_cases h : c.toNat ≥ 65 ∧ c.toNat ≤ 90
  · rw [if_pos h]
    have h2 : (Char.ofNat (c.toNat + 32)).toNat = c.toNat + 32 :=
      char_ofNat_toNat _ (by omega)
    rw [if_neg (by omega)]
  · rw [if_neg h, if_neg h]

theorem toLower_eq_slash (c : Char) : Char.toLower c = '/' ↔ c = '/' := by
  constructor
  · intro h
    unfold Char.toLower at h
    by_cases hc : c.toNat ≥ 65 ∧ c.toNat ≤ 90
    · rw [if_pos hc] at h
      have h2 : (Char.ofNat (c.toNat + 32)).toNat = c.toNat + 32 :=
        char_ofNat_toNat _ (by omega)
      have h3 : (Char.ofNat (c.toNat + 32)).toNat = '/'.toNat := by rw [h]
      have h4 : '/'.toNat = 47 := by decide
      omega
    · rwa [if_neg hc] at h
  · intro h
    subst h
    decide

theorem pyLower_idem (l : List Char) : pyLower (pyLower l) = pyLower l := by
  unfold pyLower
  rw [List.map_map]
  exact List.map_congr_left (fun c _ => toLower_idem c)

theorem dropWhile_eq_self_of (p : Char → Bool) (l : List Char) (h : ∀ c ∈ l, p c = false) :
    l.dropWhile p = l := by
  cases l with
  | nil => rfl
  | cons a as =>
    rw [List.dropWhile_cons_of_neg (by simp [h a (List.mem_cons_self a as)])]

theorem head?_dropWhile_ne (p : Char → Bool) (l : List Char) (a : Char)
    (h : (l.dropWhile p).head? = some a) : p a = false := by
  induction l with
  | nil => simp [List.dropWhile] at h
  | cons b bs ih =>
    by_cases hb : p b
    · rw [List.dropWhile_cons_of_pos hb] at h
      exact ih h
    · rw [List.dropWhile_cons_of_neg hb] at h
      simp only [List.head?_cons, Option.some.injEq] at h
      subst h
      simpa using hb

theorem endsInSlash_rstripSlashes (l : List Char) : endsInSlash (rstripSlashes l) = false := by
  have h : ¬ (rstripSlashes l).getLast? = some '/' := by
    unfold rstripSlashes
    rw [List.getLast?_reverse]
    intro hcon
    have h2 := head?_dropWhile_ne (fun c => c = '/') l.reverse '/' hcon
    simp at h2
  unfold endsInSlash
  exact decide_eq_false h

theorem endsInSlash_pyLower (l : List Char) : endsInSlash (pyLower l) = endsInSlash l := by
  unfold endsInSlash pyLower
  rw [List.getLast?_map]
  refine decide_eq_decide.mpr ?_
  cases h : l.getLast? with
  | none => simp
  | some c => simp [toLower_eq_slash]

theorem pyLower_slash_or_not (n1 : List Char) :
    pyLower (if endsInSlash n1 ∧ n1.length > 1 then rstripSlashes n1 else n1) = ['/'] ∨
    endsInSlash
        (pyLower (if endsInSlash n1 ∧ n1.length > 1 then rstripSlashes n1 else n1)) =
      false := by
  by_cases h : endsInSlash n1 ∧ n1.length > 1
  · right
    rw [if_pos h, endsInSlash_pyLower]
    exact endsInSlash_rstripSlashes n1
  · rw [if_neg h]
    by_cases hs : endsInSlash n1 = true
    · left
      have hlen : ¬ n1.length > 1 := fun hl => h ⟨hs, hl⟩
      have hne : ¬ n1 = [] := by
        intro hnil
        rw [hnil] at hs
        simp [endsInSlash] at hs
      have hlen1 : n1.length = 1 := by
        have := List.length_pos.mpr hne
        omega
      obtain ⟨c, hc⟩ := List.length_eq_one.mp hlen1
      subst hc
      simp [endsInSlash] at hs
      subst hs
      decide
    · right
      rw [endsInSlash_pyLower]
      simpa using hs

/-- Both branches of normLinkCore yield the root slash or something not
ending in a slash. -/
theorem normLinkCore_slash (u : List Char) :
    normLinkCore u = ['/'] ∨ endsInSlash (normLinkCore u) = false := by
  unfold normLinkCore
  cases hp : pyUrlparse u with
  | error e =>
    right
    rw [endsInSlash_pyLower]
    exact endsInSlash_rstripSlashes _
  | ok parsed =>
    unfold normFromParts
    exact pyLower_slash_or_not _

/-- The canonical output of normalize_link never ends in a slash unless
it is the lone root slash. -/
theorem normLinkList_slash (raw : List Char) :
    normLinkList raw = ['/'] ∨ endsInSlash (normLinkList raw) = false := by
  unfold normLinkList
  by_cases h : raw = []
  · rw [if_pos h]
    right
    rfl
  · rw [if_neg h]
    exact normLinkCore_slash _

theorem normLinkCore_lower (u : List Char) :
    pyLower (normLinkCore u) = normLinkCore u := by
  unfold normLinkCore
  cases hp : pyUrlparse u with
  | error e => exact pyLower_idem _
  | ok parsed =>
    unfold normFromParts
    exact pyLower_idem _

/-- The output of normalize_link is already lowercase. -/
theorem normLinkList_lower (raw : List Char) :
    pyLower (normLinkList raw) = normLinkList raw := by
  unfold normLinkList
  by_cases h : raw = []
  · rw [if_pos h]
    rfl
  · rw [if_neg h]
    exact normLinkCore_lower _

theorem cleanChar_iff (c : Char) :
    cleanChar c = true ↔ 0x20 < c.toNat ∧ isPySpace c = false := by
  unfold cleanChar
  simp

theorem splitFirst_not_mem (sep : Char) (l : List Char) (h : ¬ sep ∈ l) :
    splitFirst sep l = (l, none) := by
  induction l with
  | nil => rfl
  | cons c rest ih =>
    have hc : ¬ c = sep := by
      intro hcs
      exact h (hcs ▸ List.mem_cons_self c rest)
    have hr : ¬ sep ∈ rest := fun hm => h (List.mem_cons_of_mem _ hm)
    unfold splitFirst
    rw [if_neg hc, ih hr]

theorem pyStripL_eq_self (l : List Char) (h : ∀ c ∈ l, isPySpace c = false) :
    pyStripL l = l := by
  unfold pyStripL
  rw [dropWhile_eq_self_of _ _ h,
    dropWhile_eq_self_of _ _ (fun c hc => h c (List.mem_reverse.mp hc)), List.reverse_reverse]

theorem lstripC0Space_eq_self (l : List Char) (h : ∀ c ∈ l, cleanChar c = true) :
    lstripC0Space l = l := by
  unfold lstripC0Space
  refine dropWhile_eq_self_of _ _ (fun c hc => ?_)
  have := (cleanChar_iff c).mp (h c hc)
  simpa using (by omega : ¬ c.toNat ≤ 0x20)

theorem removeTabsCrLf_eq_self (l : List Char) (h : ∀ c ∈ l, cleanChar c = true) :
    removeTabsCrLf l = l := by
  unfold removeTabsCrLf
  refine List.filter_eq_self.mpr (fun c hc => ?_)
  have h2 := (cleanChar_iff c).mp (h c hc)
  refine decide_eq_true ?_
  rintro (rfl | rfl | rfl) <;> revert h2 <;> decide

theorem splitScheme_no_colon (y : List Char) (h : ¬ ':' ∈ y) :
    splitScheme y = (none, y) := by
  unfold splitScheme
  cases hd : y.drop (y.takeWhile isSchemeChar).length with
  | nil => simp only [hd]
  | cons c tail =>
    have hcy : c ∈ y := List.mem_of_mem_drop (hd ▸ List.mem_cons_self c tail)
    have hc : ¬ c = ':' := by
      intro hcs
      exact h (hcs ▸ hcy)
    simp only [hd]
    rw [if_neg hc]

theorem pyUrlsplit_clean (y : List Char) (hcolon : ¬ ':' ∈ y) (hquery : ¬ '?' ∈ y)
    (hhash : ¬ '#' ∈ y) (hss : ¬ y.take 2 = ['/', '/'])
    (hclean : ∀ c ∈ y, cleanChar c = true) :
    pyUrlsplit y = .ok ⟨[], [], y, [], [], []⟩ := by
  unfold pyUrlsplit
  simp only [lstripC0Space_eq_self y hclean, removeTabsCrLf_eq_self y hclean,
    splitScheme_no_colon y hcolon, Option.getD_none]
  rw [if_neg hss]
  unfold urlsplitFinish
  simp only [splitFirst_not_mem _ _ hhash, splitFirst_not_mem _ _ hquery,
    Option.isSome_none, Bool.false_eq_true, if_false, Option.getD_none]

theorem pyUrlparse_clean (y : List Char) (hcolon : ¬ ':' ∈ y) (hquery : ¬ '?' ∈ y)
    (hhash : ¬ '#' ∈ y) (hsemi : ¬ ';' ∈ y) (hss : ¬ y.take 2 = ['/', '/'])
    (hclean : ∀ c ∈ y, cleanChar c = true) :
    pyUrlparse y = .ok ⟨[], [], y, [], [], []⟩ := by
  unfold pyUrlparse
  rw [pyUrlsplit_clean y hcolon hquery hhash hss hclean]
  have hcont : y.contains ';' = false := by
    rw [← Bool.not_eq_true]
    intro hc
    exact hsemi (List.elem_iff.mp hc)
  simp only [hcont, Bool.false_eq_true, if_false]

theorem normFromParts_clean (y : List Char) (hsl : y = ['/'] ∨ endsInSlash y = false)
    (hlow : pyLower y = y) : normFromParts ⟨[], [], y, [], [], []⟩ = y := by
  have hbase : normFromParts ⟨[], [], y, [], [], []⟩ =
      pyLower (if endsInSlash y ∧ y.length > 1 then rstripSlashes y else y) := rfl
  rw [hbase]
  rcases hsl with hroot | hends
  · subst hroot
    decide
  · rw [if_neg (by simp [hends])]
    exact hlow

/-- On a clean, already-canonical list (no colon, question mark, hash or
semicolon, not starting with a double slash, no whitespace or control
characters, lowercase, no stray trailing slash) normLinkList is the
identity. -/
theorem normLinkList_idem_of_clean (y : List Char) (hsl : y = ['/'] ∨ endsInSlash y = false)
    (hlow : pyLower y = y) (hpre : ¬ y.take 2 = ['/', '/']) (hcolon : ¬ ':' ∈ y)
    (hquery : ¬ '?' ∈ y) (hhash : ¬ '#' ∈ y) (hsemi : ¬ ';' ∈ y)
    (hclean : ∀ c ∈ y, cleanChar c = true) : normLinkList y = y := by
  by_cases hnil : y = []
  · rw [hnil]
    rfl
  · unfold normLinkList
    rw [if_neg hnil]
    have hstrip : pyStripL y = y :=
      pyStripL_eq_self y (fun c hc => ((cleanChar_iff c).mp (hclean c hc)).2)
    simp only [hstrip]
    rw [if_neg hpre]
    unfold normLinkCore
    rw [pyUrlparse_clean y hcolon hquery hhash hsemi hpre hclean]
    exact normFromParts_clean y hsl hlow

/-! Claim C7. -/

/-- Claim C7 counterexample: the spec example is wrong on the code. The
trailing-slash strip of normalize_link runs after the query string has
been appended, so the slash before the question mark survives: the input
https://example.com/a/?utm_source=x&b=2 normalizes to
example.com/a/?b=2, not to example.com/a?b=2 as the claim states. -/
theorem tracking_example_value :
    normalize_link "https://example.com/a/?utm_source=x&b=2" = "example.com/a/?b=2" ∧
    ¬ normalize_link "https://example.com/a/?utm_source=x&b=2" = "example.com/a?b=2" := by
  decide

/-- Claim C7 (amended): normalize_link removes exactly the query
parameters whose key, compared case-insensitively, starts with utm_ or
equals fbclid or gclid, and keeps every other parameter including
blank-valued and multi-valued ones; the concrete example
normalize_link("https://example.com/a/?utm_source=x&b=2") evaluates to
"example.com/a/?b=2" (the path slash before the query survives), not to
"example.com/a?b=2". -/
theorem tracking_param_removal (qs : List Char) (kv : List Char × List (List Char)) :
    (kv ∈ removeTracking (parse_qs qs) ↔ kv ∈ parse_qs qs ∧ trackerKey kv.1 = false) ∧
    normalize_link "https://example.com/a/?utm_source=x&b=2" = "example.com/a/?b=2" ∧
    normalize_link "https://h/p?a=1&a=2&b=&utm_x=1&UTM_y=2&FBCLID=z" = "h/p?a=1&a=2&b=" := by
  refine ⟨?_, by decide, by decide⟩
  unfold removeTracking
  constructor
  · intro hmem
    have h1 := List.mem_filter.mp hmem
    refine ⟨h1.1, ?_⟩
    cases htr : trackerKey kv.1 with
    | false => rfl
    | true =>
      exfalso
      have h2 := of_decide_eq_true h1.2
      exact h2 (List.elem_iff.mpr
        (List.mem_filter.mpr ⟨List.mem_map_of_mem Prod.fst h1.1, htr⟩))
  · rintro ⟨hmem, hfalse⟩
    refine List.mem_filter.mpr ⟨hmem, decide_eq_true ?_⟩
    intro hc
    have h3 := List.mem_filter.mp (List.elem_iff.mp hc)
    rw [hfalse] at h3
    exact absurd h3.2 (by simp)

/-! Claim C8. -/

/-- Claim C8 counterexample: normalize_link strips every trailing slash,
not exactly one. On https://example.com/a// the canonical form is
example.com/a, whereas stripping exactly one slash would have produced
example.com/a/. -/
theorem trailing_slash_strip_all_not_one :
    normalize_link "https://example.com/a//" = "example.com/a" ∧
    ¬ normalize_link "https://example.com/a//" = "example.com/a/" := by
  decide

/-- Claim C8 (amended): normalize_link strips all trailing slashes from
the canonical form (when it ends in a slash and is longer than one
character), so the result never ends in a slash unless it is the lone
root slash, which is kept; the root case is reachable (https:///) and a
double trailing slash collapses entirely. -/
theorem trailing_slash_policy :
    (∀ s : String, normalize_link s = "/" ∨ endsInSlash (normalize_link s).data = false) ∧
    normalize_link "https://example.com/a//" = "example.com/a" ∧
    normalize_link "https:///" = "/" := by
  refine ⟨fun s => ?_, by decide, by decide⟩
  rcases normLinkList_slash s.data with h | h
  · left
    show String.mk (normLinkList s.data) = "/"
    rw [h]
  · right
    exact h

/-! Claim C9. -/

/-- Claim C9 counterexample: normalize_link is not idempotent. The input
a:b:c normalizes to b:c (urlparse treats a as a scheme), and feeding b:c
back in yields c. -/
theorem normalize_link_not_idempotent :
    ¬ normalize_link (normalize_link "a:b:c") = normalize_link "a:b:c" := by
  decide

/-- Claim C9 (amended): normalize_link is idempotent on every input whose
canonical output is free of the characters that make the second parse
diverge: outputs that do not start with a double slash and contain no
colon, question mark, hash, semicolon, whitespace or control characters.
On such inputs feeding the output back in returns it unchanged; the
counterexample a:b:c shows the unrestricted claim fails. -/
theorem normalize_link_idem_on_clean (x : String)
    (hpre : ¬ (normalize_link x).data.take 2 = ['/', '/'])
    (hcolon : ¬ ':' ∈ (normalize_link x).data)
    (hquery : ¬ '?' ∈ (normalize_link x).data)
    (hhash : ¬ '#' ∈ (normalize_link x).data)
    (hsemi : ¬ ';' ∈ (normalize_link x).data)
    (hclean : ∀ c ∈ (normalize_link x).data, cleanChar c = true) :
    normalize_link (normalize_link x) = normalize_link x := by
  have h := normLinkList_idem_of_clean (normalize_link x).data
    (normLinkList_slash x.data) (normLinkList_lower x.data) hpre hcolon hquery hhash hsemi
    hclean
  show String.mk (normLinkList (normalize_link x).data) = normalize_link x
  rw [h]

/-- Claim C9 witness: the clean-output hypotheses hold for a concrete
URL and the amended idempotence follows for it. -/
theorem normalize_link_idem_on_clean_witness :
    normalize_link (normalize_link "https://Example.com/Path") =
      normalize_link "https://Example.com/Path" :=
  normalize_link_idem_on_clean "https://Example.com/Path" (by decide) (by decide) (by decide)
    (by decide) (by decide) (by decide)

/-! Lemmas about the ingest deduplication loop. -/

theorem mem_addSet (s : List String) (x y : String) : y ∈ addSet s x ↔ y ∈ s ∨ y = x := by
  unfold addSet
  by_cases h : x ∈ s
  · rw [if_pos h]
    constructor
    · exact Or.inl
    · rintro (hy | rfl)
      · exact hy
      · exact h
  · rw [if_neg h]
    rw [List.mem_cons]
    tauto

theorem dedupe_links_mono (ns : List NormItem) (st : DedupState) (x : String)
    (h : x ∈ st.links) : x ∈ (ns.foldl dedupeStep st).links := by
  induction ns generalizing st with
  | nil => exact h
  | cons it rest ih =>
    refine ih _ ?_
    unfold dedupeStep
    split
    · split
      · exact (mem_addSet _ _ _).mpr (Or.inl h)
      · exact h
    · split
      · exact h
      · split
        · exact h
        · exact h

theorem dedupe_toInsert_mono (ns : List NormItem) (st : DedupState) (it1 : NormItem)
    (h : it1 ∈ st.toInsert) : it1 ∈ (ns.foldl dedupeStep st).toInsert := by
  induction ns generalizing st with
  | nil => exact h
  | cons it rest ih =>
    refine ih _ ?_
    unfold dedupeStep
    split
    · split
      · exact List.mem_append_left _ h
      · exact h
    · split
      · exact List.mem_append_left _ h
      · split
        · exact h
        · exact h

theorem dedupe_noLinkNoTitle_inv (ns : List NormItem) (st : DedupState) :
    (ns.foldl dedupeStep st).skipped.noLinkNoTitle = st.skipped.noLinkNoTitle := by
  induction ns generalizing st with
  | nil => rfl
  | cons it rest ih =>
    rw [List.foldl_cons, ih]
    unfold dedupeStep
    split
    · split
      · rfl
      · rfl
    · split
      · rfl
      · split
        · rfl
        · rfl

theorem dedupe_count_zero (nl : String) (hnl : ¬ nl = "") (ns : List NormItem) :
    ∀ st : DedupState, nl ∈ st.links →
      List.countP (fun it => decide (it.norm_link = nl)) (ns.foldl dedupeStep st).toInsert =
        List.countP (fun it => decide (it.norm_link = nl)) st.toInsert := by
  induction ns with
  | nil => intro st _; rfl
  | cons it rest ih =>
    intro st h
    rw [List.foldl_cons]
    have hin : nl ∈ (dedupeStep st it).links := by
      unfold dedupeStep
      split
      · split
        · exact (mem_addSet _ _ _).mpr (Or.inl h)
        · exact h
      · split
        · exact h
        · split
          · exact h
          · exact h
    rw [ih _ hin]
    unfold dedupeStep
    split
    · split
      · next hne hnot =>
        have hdiff : ¬ it.norm_link = nl := by
          intro he
          exact hnot (he ▸ h)
        show List.countP _ (st.toInsert ++ [it]) = _
        rw [List.countP_append]
        simp [hdiff]
      · rfl
    · split
      · next hempty hkey =>
        have hdiff : ¬ it.norm_link = nl := by
          simp only [Decidable.not_not] at hempty
          rw [hempty]
          intro he
          exact hnl he.symm
        show List.countP _ (st.toInsert ++ [it]) = _
        rw [List.countP_append]
        simp [hdiff]
      · split
        · rfl
        · rfl

theorem dedupe_count_le_one (nl : String) (hnl : ¬ nl = "") (ns : List NormItem) :
    ∀ st : DedupState,
      List.countP (fun it => decide (it.norm_link = nl)) st.toInsert ≤ 1 →
      (1 ≤ List.countP (fun it => decide (it.norm_link = nl)) st.toInsert → nl ∈ st.links) →
      List.countP (fun it => decide (it.norm_link = nl)) (ns.foldl dedupeStep st).toInsert ≤
        1 := by
  induction ns with
  | nil => intro st h1 _; exact h1
  | cons it rest ih =>
    intro st h1 h2
    rw [List.foldl_cons]
    by_cases hit : it.norm_link = nl
    · by_cases hmem : it.norm_link ∈ st.links
      · have hstep : dedupeStep st it =
            { st with skipped :=
                { st.skipped with duplicateLink := st.skipped.duplicateLink + 1 } } := by
          unfold dedupeStep
          rw [if_pos (by rw [hit]; exact hnl), if_neg (by simpa using hmem)]
        rw [hstep]
        exact ih _ h1 h2
      · have hzero : List.countP (fun it => decide (it.norm_link = nl)) st.toInsert = 0 := by
          by_contra hne
          exact hmem (hit ▸ h2 (by omega))
        have hstep : dedupeStep st it =
            { st with toInsert := st.toInsert ++ [it]
                      links := addSet st.links it.norm_link } := by
          unfold dedupeStep
          rw [if_pos (by rw [hit]; exact hnl), if_pos (by simpa using hmem)]
        rw [hstep]
        refine ih _ ?_ ?_
        · show List.countP _ (st.toInsert ++ [it]) ≤ 1
          rw [List.countP_append, hzero]
          simp [hit]
        · intro _
          show nl ∈ addSet st.links it.norm_link
          exact (mem_addSet _ _ _).mpr (Or.inr hit.symm)
    · have hcount : List.countP (fun it => decide (it.norm_link = nl))
          (dedupeStep st it).toInsert =
          List.countP (fun it => decide (it.norm_link = nl)) st.toInsert := by
        unfold dedupeStep
        split
        · split
          · show List.countP _ (st.toInsert ++ [it]) = _
            rw [List.countP_append]
            simp [hit]
          · rfl
        · split
          · show List.countP _ (st.toInsert ++ [it]) = _
            rw [List.countP_append]
            simp [hit]
          · split
            · rfl
            · rfl
      have hlinks : nl ∈ st.links → nl ∈ (dedupeStep st it).links := by
        intro h
        unfold dedupeStep
        split
        · split
          · exact (mem_addSet _ _ _).mpr (Or.inl h)
          · exact h
        · split
          · exact h
          · split
            · exact h
            · exact h
      refine ih _ (by rw [hcount]; exact h1) ?_
      intro hge
      rw [hcount] at hge
      exact hlinks (h2 hge)

theorem dedupe_exists (nl : String) (hnl : ¬ nl = "") (ns : List NormItem) :
    ∀ st : DedupState, ¬ nl ∈ st.links → (∃ it ∈ ns, it.norm_link = nl) →
      ∃ it1 ∈ (ns.foldl dedupeStep st).toInsert, it1.norm_link = nl := by
  induction ns with
  | nil =>
    rintro st _ ⟨it, hmem, _⟩
    exact absurd hmem (List.not_mem_nil it)
  | cons it rest ih =>
    rintro st hnot ⟨it0, hmem, heq⟩
    rw [List.foldl_cons]
    by_cases hit : it.norm_link = nl
    · have hstep : dedupeStep st it =
          { st with toInsert := st.toInsert ++ [it]
                    links := addSet st.links it.norm_link } := by
        unfold dedupeStep
        rw [if_pos (by rw [hit]; exact hnl), if_pos (by simpa [hit] using hnot)]
      rw [hstep]
      refine ⟨it, ?_, hit⟩
      exact dedupe_toInsert_mono rest _ it (List.mem_append_right _ (List.mem_singleton.mpr rfl))
    · have hnot2 : ¬ nl ∈ (dedupeStep st it).links := by
        unfold dedupeStep
        split
        · split
          · intro hc
            rcases (mem_addSet _ _ _).mp hc with hc1 | hc2
            · exact hnot hc1
            · exact hit hc2.symm
          · exact hnot
        · split
          · exact hnot
          · split
            · exact hnot
            · exact hnot
      have hrest : ∃ it1 ∈ rest, it1.norm_link = nl := by
        rcases List.mem_cons.mp hmem with rfl | hmem2
        · exact absurd heq hit
        · exact ⟨it0, hmem2, heq⟩
      exact ih _ hnot2 hrest

theorem dedupeStep_links_mono (st : DedupState) (it : NormItem) (x : String)
    (h : x ∈ st.links) : x ∈ (dedupeStep st it).links := by
  unfold dedupeStep
  split
  · split
    · exact (mem_addSet _ _ _).mpr (Or.inl h)
    · exact h
  · split
    · exact h
    · split
      · exact h
      · exact h

theorem dedupeStep_links_not_mem (st : DedupState) (it : NormItem) (nl : String)
    (hnot : ¬ nl ∈ st.links) (hdiff : ¬ it.norm_link = nl) :
    ¬ nl ∈ (dedupeStep st it).links := by
  unfold dedupeStep
  split
  · split
    · intro hc
      rcases (mem_addSet _ _ _).mp hc with hc1 | hc2
      · exact hnot hc1
      · exact hdiff hc2.symm
    · exact hnot
  · split
    · exact hnot
    · split
      · exact hnot
      · exact hnot

/-- Once the link is in the running set, the loop never again appends an
item carrying it: the sublist of inserted items with that link is
frozen. -/
theorem dedupe_filter_frozen (nl : String) (hnl : ¬ nl = "") (ns : List NormItem) :
    ∀ st : DedupState, nl ∈ st.links →
      (ns.foldl dedupeStep st).toInsert.filter (fun it => it.norm_link = nl) =
        st.toInsert.filter (fun it => it.norm_link = nl) := by
  induction ns with
  | nil => intro st _; rfl
  | cons it rest ih =>
    intro st h
    rw [List.foldl_cons, ih _ (dedupeStep_links_mono st it nl h)]
    unfold dedupeStep
    split
    · split
      · next hne hnot =>
        have hdiff : ¬ it.norm_link = nl := by
          intro he
          exact hnot (he ▸ h)
        show List.filter _ (st.toInsert ++ [it]) = _
        rw [List.filter_append]
        simp [hdiff]
      · rfl
    · split
      · next hempty hkey =>
        have hdiff : ¬ it.norm_link = nl := by
          simp only [Decidable.not_not] at hempty
          rw [hempty]
          intro he
          exact hnl he.symm
        show List.filter _ (st.toInsert ++ [it]) = _
        rw [List.filter_append]
        simp [hdiff]
      · split
        · rfl
        · rfl

/-- First-seen wins: starting from a state that has not seen the link
and has inserted nothing with it, the inserted items carrying the link
are exactly the first batch occurrence found by List.find?. -/
theorem dedupe_first_wins (nl : String) (hnl : ¬ nl = "") (ns : List NormItem) :
    ∀ st : DedupState, ¬ nl ∈ st.links →
      st.toInsert.filter (fun it => it.norm_link = nl) = [] →
      (ns.foldl dedupeStep st).toInsert.filter (fun it => it.norm_link = nl) =
        (ns.find? (fun it => it.norm_link = nl)).toList := by
  induction ns with
  | nil =>
    intro st _ hf
    exact hf
  | cons it rest ih =>
    intro st hnot hf
    rw [List.foldl_cons]
    by_cases hit : it.norm_link = nl
    · have hstep : dedupeStep st it =
          { st with toInsert := st.toInsert ++ [it]
                    links := addSet st.links it.norm_link } := by
        unfold dedupeStep
        rw [if_pos (by rw [hit]; exact hnl), if_pos (by simpa [hit] using hnot)]
      rw [hstep]
      have hin : nl ∈ addSet st.links it.norm_link :=
        (mem_addSet _ _ _).mpr (Or.inr hit.symm)
      rw [dedupe_filter_frozen nl hnl rest _ hin]
      show List.filter _ (st.toInsert ++ [it]) = _
      have hfind : List.find? (fun x : NormItem => decide (x.norm_link = nl)) (it :: rest) =
          some it :=
        List.find?_cons_of_pos rest (decide_eq_true hit)
      rw [List.filter_append, hf, hfind]
      simp [hit]
    · have hstepf : (dedupeStep st it).toInsert.filter (fun it => it.norm_link = nl) =
          [] := by
        unfold dedupeStep
        split
        · split
          · show List.filter _ (st.toInsert ++ [it]) = []
            rw [List.filter_append, hf]
            simp [hit]
          · exact hf
        · split
          · show List.filter _ (st.toInsert ++ [it]) = []
            rw [List.filter_append, hf]
            simp [hit]
          · split
            · exact hf
            · exact hf
      have hfind : List.find? (fun x : NormItem => decide (x.norm_link = nl)) (it :: rest) =
          List.find? (fun x : NormItem => decide (x.norm_link = nl)) rest :=
        List.find?_cons_of_neg rest (by simpa using hit)
      rw [ih _ (dedupeStep_links_not_mem st it nl hnot hit) hstepf, hfind]

/-! Claim C1. -/

/-- Claim C1: within one ingest run, at most one item with a given
non-empty normalized link is added to the batch insert; if the link is
already in the existing-links set nothing with it is inserted at all,
and otherwise the inserted items carrying that link are exactly the
FIRST batch occurrence of it (List.find?), so every later entry with
the same normalized link is skipped rather than inserted because the
set is updated immediately. -/
theorem ingest_at_most_one_insert_per_norm_link (ns : List NormItem) (eL eK : List String)
    (nl : String) (hnl : ¬ nl = "") :
    List.countP (fun it => decide (it.norm_link = nl)) (dedupe ns eL eK).toInsert ≤ 1 ∧
    (nl ∈ eL →
      List.countP (fun it => decide (it.norm_link = nl)) (dedupe ns eL eK).toInsert = 0) ∧
    (¬ nl ∈ eL → ∀ it0 ∈ ns, it0.norm_link = nl →
      ∃ it1 ∈ (dedupe ns eL eK).toInsert, it1.norm_link = nl) ∧
    (¬ nl ∈ eL →
      (dedupe ns eL eK).toInsert.filter (fun it => it.norm_link = nl) =
        (ns.find? (fun it => it.norm_link = nl)).toList) := by
  refine ⟨?_, ?_, ?_, ?_⟩
  · exact dedupe_count_le_one nl hnl ns ⟨[], eL, eK, ⟨0, 0, 0⟩⟩ (by simp) (by simp)
  · intro hin
    exact dedupe_count_zero nl hnl ns ⟨[], eL, eK, ⟨0, 0, 0⟩⟩ hin
  · intro hnot it0 hmem heq
    exact dedupe_exists nl hnl ns ⟨[], eL, eK, ⟨0, 0, 0⟩⟩ hnot ⟨it0, hmem, heq⟩
  · intro hnot
    exact dedupe_first_wins nl hnl ns ⟨[], eL, eK, ⟨0, 0, 0⟩⟩ hnot rfl

/-- Claim C1 witness: of two batch items carrying the same normalized
link, exactly the first one is inserted. -/
theorem ingest_at_most_one_insert_per_norm_link_witness :
    (dedupe [itemX, itemX2] [] []).toInsert.filter
      (fun it => it.norm_link = "example.com/x") = [itemX] := by
  have h := (ingest_at_most_one_insert_per_norm_link [itemX, itemX2] [] [] "example.com/x"
    (by decide)).2.2.2 (by decide)
  rw [h]
  decide

/-! Claim C3. -/

theorem buildSetsStep_mem1 (acc : List String × List String) (r : StoredRow) (k : String) :
    k ∈ (buildSetsStep acc r).1 ↔
      k ∈ acc.1 ∨ (¬ normalize_link r.link = "" ∧ k = normalize_link r.link) := by
  unfold buildSetsStep
  by_cases hnl : ¬ normalize_link r.link = "" <;>
    by_cases hout : ¬ normalize_title r.title = "" ∨ ¬ r.date = ""
  · rw [if_pos hnl, if_pos hout]
    show k ∈ addSet acc.1 (normalize_link r.link) ↔ _
    rw [mem_addSet]
    tauto
  · rw [if_pos hnl, if_neg hout]
    show k ∈ addSet acc.1 (normalize_link r.link) ↔ _
    rw [mem_addSet]
    tauto
  · rw [if_neg hnl, if_pos hout]
    show k ∈ acc.1 ↔ _
    tauto
  · rw [if_neg hnl, if_neg hout]
    show k ∈ acc.1 ↔ _
    tauto

theorem buildSetsStep_mem2 (acc : List String × List String) (r : StoredRow) (k : String) :
    k ∈ (buildSetsStep acc r).2 ↔
      k ∈ acc.2 ∨ ((¬ normalize_title r.title = "" ∨ ¬ r.date = "") ∧
        k = normalize_title r.title ++ "||" ++ r.date) := by
  unfold buildSetsStep
  by_cases hnl : ¬ normalize_link r.link = "" <;>
    by_cases hout : ¬ normalize_title r.title = "" ∨ ¬ r.date = ""
  · rw [if_pos hnl, if_pos hout]
    show k ∈ addSet acc.2 (normalize_title r.title ++ "||" ++ r.date) ↔ _
    rw [mem_addSet]
    tauto
  · rw [if_pos hnl, if_neg hout]
    show k ∈ acc.2 ↔ _
    tauto
  · rw [if_neg hnl, if_pos hout]
    show k ∈ addSet acc.2 (normalize_title r.title ++ "||" ++ r.date) ↔ _
    rw [mem_addSet]
    tauto
  · rw [if_neg hnl, if_neg hout]
    show k ∈ acc.2 ↔ _
    tauto

theorem buildSets_aux (k : String) (rows : List StoredRow) :
    ∀ acc : List String × List String,
      (k ∈ (rows.foldl buildSetsStep acc).1 ↔
        k ∈ acc.1 ∨ ∃ r ∈ rows, ¬ normalize_link r.link = "" ∧ k = normalize_link r.link) ∧
      (k ∈ (rows.foldl buildSetsStep acc).2 ↔
        k ∈ acc.2 ∨ ∃ r ∈ rows, (¬ normalize_title r.title = "" ∨ ¬ r.date = "") ∧
          k = normalize_title r.title ++ "||" ++ r.date) := by
  induction rows with
  | nil => intro acc; simp
  | cons r rest ih =>
    intro acc
    rw [List.foldl_cons]
    constructor
    · rw [(ih (buildSetsStep acc r)).1, buildSetsStep_mem1, List.exists_mem_cons_iff,
        or_assoc]
    · rw [(ih (buildSetsStep acc r)).2, buildSetsStep_mem2, List.exists_mem_cons_iff,
        or_assoc]

/-- Claim C3 counterexample: a stored row whose normalized link is
non-empty still contributes its normalized-title-and-date key to
existing_title_date_set, contradicting the claim that such a row never
feeds that set. -/
theorem title_date_set_includes_linked_row :
    ¬ normalize_link rowLinked.link = "" ∧ "t||D" ∈ (buildSets [rowLinked]).2 := by
  decide

/-- Claim C3 (amended): existing_title_date_set is built from every
stored row whose normalized title or raw date is non-empty, regardless
of whether the row has a usable link, and existing_links_set from every
row with a non-empty normalized link; a row with both a usable link and
a usable title or date contributes to both sets. -/
theorem title_date_set_characterization (rows : List StoredRow) (k : String) :
    (k ∈ (buildSets rows).2 ↔
      ∃ r ∈ rows, (¬ normalize_title r.title = "" ∨ ¬ r.date = "") ∧
        k = normalize_title r.title ++ "||" ++ r.date) ∧
    (k ∈ (buildSets rows).1 ↔
      ∃ r ∈ rows, ¬ normalize_link r.link = "" ∧ k = normalize_link r.link) := by
  have h := buildSets_aux k rows ([], [])
  unfold buildSets
  constructor
  · rw [h.2]
    simp
  · rw [h.1]
    simp

/-! Claim C4. -/

/-- Claim C4 counterexample: an entry that survives the title-or-link
filter with an empty normalized link and an empty title-date key is not
silently dropped: it increments duplicateTitleDate, so the skip counters
of the response read zero-one-zero rather than all zero. -/
theorem no_link_no_key_counts_duplicateTitleDate :
    getSkipped (store_news [entryNoLinkNoDate] [] true).1 = some ⟨0, 1, 0⟩ := by
  decide

/-- Claim C4 (amended): duplicateTitleDate is only ever incremented for
items whose normalized link is empty (link-duplicate skips never touch
it), and for a link-less item it is incremented both when the title-date
key is a duplicate and when the key is empty; in the empty-key case the
item is skipped with duplicateTitleDate as the only state change, while
duplicateLink and noLinkNoTitle are never changed by link-less items. -/
theorem duplicate_title_date_counter_behavior (st : DedupState) (it : NormItem) :
    (¬ it.norm_link = "" →
      (dedupeStep st it).skipped.duplicateTitleDate = st.skipped.duplicateTitleDate) ∧
    (it.norm_link = "" →
      (dedupeStep st it).skipped.duplicateLink = st.skipped.duplicateLink ∧
      (dedupeStep st it).skipped.noLinkNoTitle = st.skipped.noLinkNoTitle) ∧
    (it.norm_link = "" → it.title_date_key = "" →
      dedupeStep st it =
        { st with skipped :=
            { st.skipped with duplicateTitleDate := st.skipped.duplicateTitleDate + 1 } }) := by
  refine ⟨?_, ?_, ?_⟩
  · intro h
    unfold dedupeStep
    rw [if_pos h]
    split
    · rfl
    · rfl
  · intro h
    unfold dedupeStep
    rw [if_neg (by simpa using h), if_pos h]
    split
    · exact ⟨rfl, rfl⟩
    · exact ⟨rfl, rfl⟩
  · intro h hk
    unfold dedupeStep
    rw [if_neg (by simpa using h), if_neg (by simp [hk]), if_pos h]

/-- Claim C4 witness: the empty-link empty-key item concretely increments
duplicateTitleDate from the empty state. -/
theorem duplicate_title_date_counter_behavior_witness :
    dedupeStep stEmpty itemNoKey =
      { stEmpty with skipped :=
          { stEmpty.skipped with
              duplicateTitleDate := stEmpty.skipped.duplicateTitleDate + 1 } } :=
  (duplicate_title_date_counter_behavior stEmpty itemNoKey).2.2 rfl rfl

/-! Claim C5. -/

/-- Claim C5 counterexample: the empty-feed response does not carry a
fetchedCount field at all; its zero counts are published under the keys
fetched and inserted instead. -/
theorem empty_feed_response_key_names :
    (store_news [] [] true).1 = .emptyFeed ∧
    ¬ "fetchedCount" ∈ responseKeys (store_news [] [] true).1 ∧
    fieldNat (store_news [] [] true).1 "fetchedCount" = none := by
  decide

/-- Claim C5 (amended): when the fetched feed parses to an empty entry
list the ingest pipeline succeeds (status 200, no error) with zero
counts and attempts no store write; the zero counts are reported under
the response keys fetched and inserted, not fetchedCount and
insertedCount. -/
theorem empty_feed_zero_counts_no_write (rows : List StoredRow) (ok : Bool) :
    store_news [] rows ok = (.emptyFeed, none) ∧
    storeStatus (store_news [] rows ok).1 = 200 ∧
    fieldNat (store_news [] rows ok).1 "fetched" = some 0 ∧
    fieldNat (store_news [] rows ok).1 "inserted" = some 0 ∧
    "fetched" ∈ responseKeys (store_news [] rows ok).1 := by
  have h : store_news [] rows ok = (.emptyFeed, none) := rfl
  refine ⟨h, ?_, ?_, ?_, ?_⟩ <;> rw [h] <;> decide

/-! Claim C10. -/

/-- Claim C10: every store_news response that reports skip statistics
carries a noLinkNoTitle counter equal to zero; it is initialized to zero
and no branch of the deduplication loop increments it. -/
theorem noLinkNoTitle_always_zero (items : List Entry) (rows : List StoredRow) (ok : Bool)
    (sk : Skipped) (h : getSkipped (store_news items rows ok).1 = some sk) :
    sk.noLinkNoTitle = 0 := by
  have hz : ∀ (ns : List NormItem) (l1 l2 : List String),
      (dedupe ns l1 l2).skipped.noLinkNoTitle = 0 := by
    intro ns l1 l2
    unfold dedupe
    rw [dedupe_noLinkNoTitle_inv]
  simp only [store_news] at h
  by_cases h1 : items.isEmpty
  · rw [if_pos h1] at h
    simp [getSkipped] at h
  · rw [if_neg h1] at h
    by_cases h2 : buildNormalized items = []
    · rw [if_pos h2] at h
      simp [getSkipped] at h
    · rw [if_neg h2] at h
      by_cases h3 :
          (dedupe (buildNormalized items) (buildSets rows).1
              (buildSets rows).2).toInsert.map projectItem = []
      · rw [if_pos h3] at h
        simp only [getSkipped, Option.some.injEq] at h
        rw [← h]
        exact hz _ _ _
      · rw [if_neg h3] at h
        by_cases h4 : ok = true
        · rw [if_pos h4] at h
          simp only [getSkipped, Option.some.injEq] at h
          rw [← h]
          exact hz _ _ _
        · rw [if_neg h4] at h
          simp [getSkipped] at h

/-- Claim C10 witness: a concrete run that reports skip statistics has a
zero noLinkNoTitle counter. -/
theorem noLinkNoTitle_always_zero_witness : (⟨0, 1, 0⟩ : Skipped).noLinkNoTitle = 0 :=
  noLinkNoTitle_always_zero [entryNoLinkNoDate] [] true ⟨0, 1, 0⟩ (by decide)

/-! Lemmas about the read-pipeline window and bucketing. -/

theorem mem_pySliceFrom (o : Int) (xs : List α) (a : α) (h : a ∈ pySliceFrom o xs) :
    a ∈ xs := by
  unfold pySliceFrom at h
  split at h
  · exact List.mem_of_mem_drop h
  · exact List.mem_of_mem_drop h

theorem mem_pySliceTo (o : Int) (xs : List α) (a : α) (h : a ∈ pySliceTo o xs) : a ∈ xs := by
  unfold pySliceTo at h
  split at h
  · exact List.mem_of_mem_take h
  · exact List.mem_of_mem_take h

theorem mem_pyWindow (lim : Option Int) (off : Int) (l : List α) (a : α)
    (h : a ∈ pyWindow lim off l) : a ∈ l := by
  have step1 : ∀ x, x ∈ (if ¬ off = 0 then pySliceFrom off l else l) → x ∈ l := by
    intro x hx
    split at hx
    · exact mem_pySliceFrom _ _ _ hx
    · exact hx
  unfold pyWindow at h
  cases lim with
  | none => exact step1 a h
  | some li =>
    dsimp only at h
    by_cases hli : ¬ li = 0
    · rw [if_pos hli] at h
      exact step1 a (mem_pySliceTo _ _ _ h)
    · rw [if_neg hli] at h
      exact step1 a h

theorem filter_map_fst (g : ReadRow → Option String) (d : String) (rows : List ReadRow) :
    ((rows.map (fun r => (r, g r))).filter (fun a => decide (a.2 = some d))).map Prod.fst =
      rows.filter (fun r => decide (g r = some d)) := by
  induction rows with
  | nil => rfl
  | cons r rest ih =>
    simp only [List.map_cons, List.filter_cons]
    by_cases h : g r = some d
    · simp only [h]
      simp [ih]
    · simp only [decide_eq_false h, Bool.false_eq_true, if_false]
      simp only [decide_eq_false h] at ih ⊢
      simp [ih]

theorem rowKolkataDate_some (pFeed pIso pUtil : String → Option Int)
    (toK : Int → Option String) (s d : String)
    (h : rowKolkataDate pFeed pIso pUtil toK s = some d) :
    ¬ parse_row_date pFeed pIso pUtil s = none := by
  intro hn
  unfold rowKolkataDate at h
  rw [hn] at h
  simp at h

/-! Claim C2. -/

/-- Claim C2: the read pipeline returns rows drawn exactly from the
fetched rows whose stored date string, run through the ordered fallback
parse chain and the Kolkata conversion, equals the day actually served:
today when any row matches today, otherwise yesterday with requested_day
recording the fallback; rows whose date fails every parser are never
selected, and with no offset and no limit the returned list is exactly
the matching bucket. -/
theorem read_day_bucketing (pFeed pIso pUtil : String → Option Int)
    (toK : Int → Option String) (todayS yesterdayS : String) (rows : List ReadRow)
    (limitv : Option Int) (offsetv : Int) :
    ((fetchNewsCore pFeed pIso pUtil toK todayS yesterdayS rows limitv
          offsetv).requested_day = "today" ∨
      (fetchNewsCore pFeed pIso pUtil toK todayS yesterdayS rows limitv
          offsetv).requested_day = "yesterday") ∧
    ((fetchNewsCore pFeed pIso pUtil toK todayS yesterdayS rows limitv
          offsetv).requested_day = "today" ↔
      ∃ r ∈ rows, rowKolkataDate pFeed pIso pUtil toK r.date = some todayS) ∧
    (∀ n ∈ (fetchNewsCore pFeed pIso pUtil toK todayS yesterdayS rows limitv offsetv).news,
      n ∈ rows ∧
      rowKolkataDate pFeed pIso pUtil toK n.date =
        some
          (if (fetchNewsCore pFeed pIso pUtil toK todayS yesterdayS rows limitv
                offsetv).requested_day = "today" then todayS else yesterdayS) ∧
      ¬ parse_row_date pFeed pIso pUtil n.date = none) ∧
    (offsetv = 0 → limitv = none →
      (fetchNewsCore pFeed pIso pUtil toK todayS yesterdayS rows limitv offsetv).news =
        rows.filter (fun r =>
          rowKolkataDate pFeed pIso pUtil toK r.date =
            some
              (if (fetchNewsCore pFeed pIso pUtil toK todayS yesterdayS rows limitv
                    offsetv).requested_day = "today" then todayS else yesterdayS))) := by
  have hreq : (fetchNewsCore pFeed pIso pUtil toK todayS yesterdayS rows limitv
      offsetv).requested_day =
      (if (rows.map (fun r => (r, rowKolkataDate pFeed pIso pUtil toK r.date))).filter
          (fun a => decide (a.2 = some todayS)) = [] then "yesterday" else "today") := rfl
  have hnews : (fetchNewsCore pFeed pIso pUtil toK todayS yesterdayS rows limitv
      offsetv).news =
      (pyWindow limitv offsetv
        (if (rows.map (fun r => (r, rowKolkataDate pFeed pIso pUtil toK r.date))).filter
            (fun a => decide (a.2 = some todayS)) = [] then
          (rows.map (fun r => (r, rowKolkataDate pFeed pIso pUtil toK r.date))).filter
            (fun a => decide (a.2 = some yesterdayS))
        else
          (rows.map (fun r => (r, rowKolkataDate pFeed pIso pUtil toK r.date))).filter
            (fun a => decide (a.2 = some todayS)))).map Prod.fst := rfl
  by_cases hemp : (rows.map (fun r => (r, rowKolkataDate pFeed pIso pUtil toK r.date))).filter
      (fun a => decide (a.2 = some todayS)) = []
  · rw [if_pos hemp] at hreq hnews
    have hdays : (if (fetchNewsCore pFeed pIso pUtil toK todayS yesterdayS rows limitv
        offsetv).requested_day = "today" then todayS else yesterdayS) = yesterdayS := by
      rw [hreq]
      rw [if_neg (by decide)]
    refine ⟨Or.inr hreq, ?_, ?_, ?_⟩
    · rw [hreq]
      constructor
      · intro hcon
        exact absurd hcon (by decide)
      · rintro ⟨r, hr, heq⟩
        exfalso
        have hmem : (r, rowKolkataDate pFeed pIso pUtil toK r.date) ∈
            rows.map (fun r => (r, rowKolkataDate pFeed pIso pUtil toK r.date)) :=
          List.mem_map_of_mem _ hr
        have := List.filter_eq_nil_iff.mp hemp _ hmem
        simp only [decide_eq_true_eq] at this
        exact this heq
    · intro n hn
      rw [hnews] at hn
      obtain ⟨a, ha, hfst⟩ := List.mem_map.mp hn
      have hsel := mem_pyWindow _ _ _ _ ha
      have hmf := List.mem_filter.mp hsel
      obtain ⟨r, hr, hra⟩ := List.mem_map.mp hmf.1
      have hn2 : n = r := by rw [← hfst, ← hra]
      subst hn2
      have hkol : rowKolkataDate pFeed pIso pUtil toK n.date = some yesterdayS := by
        have := hmf.2
        rw [← hra] at this
        simpa using this
      rw [hdays]
      exact ⟨hr, hkol, rowKolkataDate_some _ _ _ _ _ _ hkol⟩
    · intro hoff hlim
      subst hoff hlim
      rw [hnews, hdays]
      show ((rows.map (fun r => (r, rowKolkataDate pFeed pIso pUtil toK r.date))).filter
          (fun a => decide (a.2 = some yesterdayS))).map Prod.fst = _
      exact filter_map_fst _ _ rows
  · rw [if_neg hemp] at hreq hnews
    have hdays : (if (fetchNewsCore pFeed pIso pUtil toK todayS yesterdayS rows limitv
        offsetv).requested_day = "today" then todayS else yesterdayS) = todayS := by
      rw [hreq]
      rw [if_pos rfl]
    refine ⟨Or.inl hreq, ?_, ?_, ?_⟩
    · rw [hreq]
      constructor
      · intro _
        obtain ⟨a, ha⟩ := List.exists_mem_of_ne_nil _ hemp
        have hmf := List.mem_filter.mp ha
        obtain ⟨r, hr, hra⟩ := List.mem_map.mp hmf.1
        refine ⟨r, hr, ?_⟩
        have := hmf.2
        rw [← hra] at this
        simpa using this
      · intro _
        rfl
    · intro n hn
      rw [hnews] at hn
      obtain ⟨a, ha, hfst⟩ := List.mem_map.mp hn
      have hsel := mem_pyWindow _ _ _ _ ha
      have hmf := List.mem_filter.mp hsel
      obtain ⟨r, hr, hra⟩ := List.mem_map.mp hmf.1
      have hn2 : n = r := by rw [← hfst, ← hra]
      subst hn2
      have hkol : rowKolkataDate pFeed pIso pUtil toK n.date = some todayS := by
        have := hmf.2
        rw [← hra] at this
        simpa using this
      rw [hdays]
      exact ⟨hr, hkol, rowKolkataDate_some _ _ _ _ _ _ hkol⟩
    · intro hoff hlim
      subst hoff hlim
      rw [hnews, hdays]
      show ((rows.map (fun r => (r, rowKolkataDate pFeed pIso pUtil toK r.date))).filter
          (fun a => decide (a.2 = some todayS))).map Prod.fst = _
      exact filter_map_fst _ _ rows

/-- Claim C2 witness: on a concrete store with one parseable today row
and one unparseable row, served with no offset and no limit, the news
list is exactly the today bucket. -/
theorem read_day_bucketing_witness :
    (fetchNewsCore pfToday pNone pNone tkDemo "2024-01-02" "2024-01-01" [rowToday, rowBad]
        none 0).news = [rowToday] := by
  have h := read_day_bucketing pfToday pNone pNone tkDemo "2024-01-02" "2024-01-01"
    [rowToday, rowBad] none 0
  rw [h.2.2.2 rfl rfl]
  decide

/-! Claim C6. -/

/-- Claim C6 counterexample: a negative offset is not rejected as a bad
request; the request succeeds with status 200 and Python slice
semantics keep the last rows of the selection. -/
theorem negative_offset_is_accepted :
    fetch_news pfToday pNone pNone tkDemo "2024-01-02" "2024-01-01" [rowToday, rowBad] none
        (some "-1") = .ok ⟨"today", "2024-01-02", 1, [rowToday]⟩ ∧
    fetchStatus (fetch_news pfToday pNone pNone tkDemo "2024-01-02" "2024-01-01"
        [rowToday, rowBad] none (some "-1")) = 200 := by
  decide

/-- Claim C6 (amended): a provided limit or offset that int() cannot
parse makes the request fail, but through the generic 500 handler, not
as a 400 bad request; a parseable value, including a negative one, is
accepted and the pipeline proceeds, a negative offset keeping the last
min(n, length) selected rows by Python slice semantics. -/
theorem malformed_pagination_behavior (pFeed pIso pUtil : String → Option Int)
    (toK : Int → Option String) (todayS yesterdayS : String) (rows : List ReadRow) :
    (∀ s : String, pyInt s = none →
      fetch_news pFeed pIso pUtil toK todayS yesterdayS rows none (some s) =
        .internalError ∧
      fetch_news pFeed pIso pUtil toK todayS yesterdayS rows (some s) none =
        .internalError ∧
      fetchStatus (fetch_news pFeed pIso pUtil toK todayS yesterdayS rows none (some s)) =
        500) ∧
    (∀ (s : String) (off : Int), pyInt s = some off →
      fetch_news pFeed pIso pUtil toK todayS yesterdayS rows none (some s) =
        .ok (fetchNewsCore pFeed pIso pUtil toK todayS yesterdayS rows none off)) ∧
    (∀ (n : Nat) (xs : List ReadRow), 0 < n →
      (pySliceFrom (-(n : Int)) xs).length = min n xs.length) := by
  refine ⟨?_, ?_, ?_⟩
  · intro s h
    refine ⟨?_, ?_, ?_⟩ <;> simp [fetch_news, h, fetchStatus]
  · intro s off h
    simp [fetch_news, h]
  · intro n xs hn
    unfold pySliceFrom
    rw [if_neg (by omega)]
    rw [List.length_drop]
    have h2 : (-(-(n : Int))).toNat = n := by
      rw [neg_neg]
      exact Int.toNat_natCast n
    rw [h2]
    omega

/-- Claim C6 witness: a non-integer offset string concretely produces the
500 internal error response. -/
theorem malformed_pagination_behavior_witness :
    fetch_news pfToday pNone pNone tkDemo "2024-01-02" "2024-01-01" [rowToday] none
        (some "abc") = .internalError :=
  ((malformed_pagination_behavior pfToday pNone pNone tkDemo "2024-01-02" "2024-01-01"
      [rowToday]).1 "abc" (by decide)).1

end MatrixQiNews

